import Mathlib

/-!
Verification of the teleportation / locomotion controller of the WebXR
Incident War Room (`src/main.js`).

The embedding mirrors the source line by line:

* 3D vectors and quaternions are modelled over `ℝ`; `Vec3.applyQuaternion`
  is the exact polynomial formula three.js uses, `Vec3.normalize` is
  three.js `divideScalar(length())`, and `applyAxisAngleY` is
  three.js `applyAxisAngle((0,1,0), θ)` (quaternion `setFromAxisAngle`
  with half angles, then `applyQuaternion`).
* The mutable module globals of `main.js` (`cameraRig.position`, `yaw`,
  `pitch`, `isPointerLocked`, `hoveredRing`, the marker materials,
  `keysDown`, `elapsedTime`) form the record `WarRoomState`.
* Every event handler (`click`, `pointerlockchange`, `mousemove`,
  `keydown`/`keyup`, controller `selectstart`) and the per-frame `render`
  body become state-transition functions, dispatched by `step`.
* Ray casting is the external picking collaborator: each event carries the
  pick result (`Option ℕ`, an index into the fixed marker list, or the
  marker's stored `userData.target` for the VR controller path), exactly
  as `raycaster.intersectObjects(teleportMarkers)` would produce it.
  Screen-to-NDC conversion (`ndcOfClient`) is modelled because the click
  and hover handlers compute it themselves.
-/

namespace WarRoom

/-- A 3D vector over `ℝ` (three.js `Vector3`; the source runs on IEEE
doubles, modelled here as exact reals). -/
structure Vec3 where
  x : ℝ
  y : ℝ
  z : ℝ

/-- A quaternion (three.js `Quaternion`, component order x, y, z, w). -/
structure Quat where
  x : ℝ
  y : ℝ
  z : ℝ
  w : ℝ

instance : Zero Vec3 := ⟨⟨0, 0, 0⟩⟩

instance : Add Vec3 := ⟨fun a b => ⟨a.x + b.x, a.y + b.y, a.z + b.z⟩⟩

instance : SMul ℝ Vec3 := ⟨fun c v => ⟨c * v.x, c * v.y, c * v.z⟩⟩

namespace Vec3

/-- Squared Euclidean length, `lengthSq()` in three.js. -/
def normSq (v : Vec3) : ℝ := v.x ^ 2 + v.y ^ 2 + v.z ^ 2

/-- Euclidean length, `length()` in three.js. -/
noncomputable def vlen (v : Vec3) : ℝ := Real.sqrt (normSq v)

/-- three.js `normalize()`: `divideScalar(length())`, i.e. multiplication
by the reciprocal length.  (For the zero vector JavaScript produces NaN;
in `ℝ` the reciprocal of `0` is `0`, so the zero vector stays zero.) -/
noncomputable def normalize (v : Vec3) : Vec3 := (1 / vlen v) • v

/-- three.js `Vector3.applyQuaternion`, the exact optimized formula
`t = 2 q×v; v + w t + q×t` used in the library source. -/
def applyQuaternion (q : Quat) (v : Vec3) : Vec3 :=
  let tx := 2 * (q.y * v.z - q.z * v.y)
  let ty := 2 * (q.z * v.x - q.x * v.z)
  let tz := 2 * (q.x * v.y - q.y * v.x)
  ⟨v.x + q.w * tx + q.y * tz - q.z * ty,
   v.y + q.w * ty + q.z * tx - q.x * tz,
   v.z + q.w * tz + q.x * ty - q.y * tx⟩

end Vec3

/-- The cross-product component about Y of two ground-plane vectors,
`u.x * v.z - u.z * v.x`; it vanishes exactly when their horizontal parts
are parallel, so it separates movement directions. -/
def crossY (u v : Vec3) : ℝ := u.x * v.z - u.z * v.x

/-- three.js `Quaternion.setFromAxisAngle((0,1,0), θ)`: the unit
quaternion of a rotation by `θ` about the world Y axis. -/
noncomputable def axisAngleYQuat (θ : ℝ) : Quat :=
  ⟨0, Real.sin (θ / 2), 0, Real.cos (θ / 2)⟩

/-- three.js `v.applyAxisAngle(new Vector3(0,1,0), θ)`: build the
axis-angle quaternion and apply it. -/
noncomputable def applyAxisAngleY (θ : ℝ) (v : Vec3) : Vec3 :=
  Vec3.applyQuaternion (axisAngleYQuat θ) v

/-! ## The controller state

`main.js` keeps the viewer frame and input bookkeeping in module-level
globals; they are gathered into one record.  Marker highlight state lives
in the materials of the teleport marker meshes; markers are referred
to by their index in the `teleportMarkers` array. -/

/-- Visual (highlight) state of one teleport marker: the solid disc's
material color / opacity, its mesh scale, and its `userData.ringOverlay`
ring's material color / opacity. -/
structure MarkerVis where
  color : ℕ
  opacity : ℝ
  scale : ℝ
  overlayColor : ℕ
  overlayOpacity : ℝ

/-- The `style.cursor` of the canvas: `''`, `'pointer'` or `'none'`. -/
inductive Cursor where
  | default
  | pointer
  | hidden
  deriving DecidableEq

/-- The movement key codes the WASD handler reads from `keysDown`. -/
inductive Key where
  | keyW
  | keyA
  | keyS
  | keyD
  | arrowUp
  | arrowDown
  | arrowLeft
  | arrowRight
  deriving DecidableEq

/-- The module-level mutable state of `main.js`:
`cameraRig.position`, `yaw`, `pitch`, `isPointerLocked`, `hoveredRing`
(as the marker's index), the marker materials, the canvas cursor style,
`keysDown`, `elapsedTime`.  `lockRequested` latches whether
`requestPointerLock()` has been called (the capture request itself; the
grant arrives later as a `pointerlockchange` event). -/
structure WarRoomState where
  pos : Vec3
  yaw : ℝ
  pitch : ℝ
  isPointerLocked : Bool
  lockRequested : Bool
  hovered : Option ℕ
  markers : ℕ → MarkerVis
  cursor : Cursor
  keysDown : Key → Bool
  elapsed : ℝ

/-- The viewer frame: the part of the state the spec calls ViewerFrame.  -/
def viewerOf (s : WarRoomState) : Vec3 × ℝ × ℝ := (s.pos, s.yaw, s.pitch)

/-- A DOM client rectangle (`getBoundingClientRect()`). -/
structure Rect where
  left : ℝ
  top : ℝ
  width : ℝ
  height : ℝ

/-- Screen-to-NDC conversion used by the click and hover handlers:
`((clientX - left) / width) * 2 - 1`, `-((clientY - top) / height) * 2 + 1`. -/
noncomputable def ndcOfClient (rect : Rect) (cx cy : ℝ) : ℝ × ℝ :=
  ((cx - rect.left) / rect.width * 2 - 1, -((cy - rect.top) / rect.height) * 2 + 1)

/-! ## Teleportation -/

/-- The teleport action shared by all three pick paths
(`cameraRig.position.set(target.x, 0, target.z)` guarded by
`hits.length > 0`): a hit moves the rig to the target's x/z at ground
height; no hit changes nothing. -/
def teleport (target : Option Vec3) (s : WarRoomState) : WarRoomState :=
  match target with
  | some t => { s with pos := ⟨t.x, 0, t.z⟩ }
  | none => s

/-- The VR controller `selectstart` handler (`onSelect`): the controller
ray (origin from the controller's world matrix, direction `(0,0,-1)`
rotated by it) is resolved against the markers by the external raycaster;
`pick` is that result's `userData.target`. -/
def onSelect (pick : Option Vec3) (s : WarRoomState) : WarRoomState :=
  teleport pick s

/-- The unified desktop `click` handler.  `targets i` is marker `i`'s
`userData.target`; `pick` is the raycaster against `teleportMarkers`.
Mirrors the source: bail out while presenting; when the pointer is not
locked, pick from the event's client coordinates, teleport on a hit
(without requesting capture) and request pointer lock only on a miss;
when locked, pick from the screen-center crosshair `(0, 0)`. -/
noncomputable def clickHandler (presenting : Bool) (targets : ℕ → Vec3)
    (pick : ℝ × ℝ → Option ℕ) (rect : Rect) (cx cy : ℝ)
    (s : WarRoomState) : WarRoomState :=
  if presenting then s
  else if s.isPointerLocked then
    teleport ((pick (0, 0)).map targets) s
  else
    match pick (ndcOfClient rect cx cy) with
    | some i => teleport (some (targets i)) s
    | none => { s with lockRequested := true }

/-! ## Mouse look and hover -/

/-- The pointer-locked branch of the `mousemove` handler:
`yaw -= movementX * 0.002; pitch -= movementY * 0.002;`
`pitch = Math.max(-π/2, Math.min(π/2, pitch))`. -/
noncomputable def applyMouseLook (dx dy : ℝ) (s : WarRoomState) : WarRoomState :=
  { s with
    yaw := s.yaw - dx * 0.002,
    pitch := max (-(Real.pi / 2)) (min (Real.pi / 2) (s.pitch - dy * 0.002)) }

/-- Iterated mouse look: a burst of pointer-locked `mousemove` events,
each carrying `(movementX, movementY)`. -/
noncomputable def mouseLookFold (s : WarRoomState) (l : List (ℝ × ℝ)) : WarRoomState :=
  l.foldl (fun t p => applyMouseLook p.1 p.2 t) s

/-- Reset a marker to its resting highlight (the `if (hoveredRing)` block:
color `0x80ffea`, opacity `0.15`, overlay color `0x80ffea`, scale 1). -/
def unhighlight (m : MarkerVis) : MarkerVis :=
  { m with color := 0x80ffea, opacity := 0.15, overlayColor := 0x80ffea, scale := 1 }

/-- Highlight the newly hovered marker (color `0xffffff`, opacity `0.35`,
overlay color `0xffffff`, scale 1.3).  Every marker has a `ringOverlay`,
so the `if (hoveredRing.userData.ringOverlay)` test always passes. -/
def highlight (m : MarkerVis) : MarkerVis :=
  { m with color := 0xffffff, opacity := 0.35, overlayColor := 0xffffff, scale := 1.3 }

/-- The hover branch of the `mousemove` handler, given the pick result
`newHover` (`hits.length > 0 ? hits[0].object : null`): when the hovered
marker changed, un-highlight the old one and highlight the new one; then
set the cursor from the (possibly new) hovered marker. -/
def updateHoverWith (newHover : Option ℕ) (s : WarRoomState) : WarRoomState :=
  let s1 :=
    if newHover = s.hovered then s
    else
      { s with
        hovered := newHover,
        markers := fun i =>
          let m := s.markers i
          let m := if s.hovered = some i then unhighlight m else m
          if newHover = some i then highlight m else m }
  { s1 with cursor := if s1.hovered.isSome then Cursor.pointer else Cursor.default }

/-- The `mousemove` handler: mouse look while pointer-locked, hover
detection while unlocked and not presenting, otherwise nothing. -/
noncomputable def mousemoveHandler (presenting : Bool) (dx dy : ℝ)
    (pick : ℝ × ℝ → Option ℕ) (rect : Rect) (cx cy : ℝ)
    (s : WarRoomState) : WarRoomState :=
  if s.isPointerLocked then applyMouseLook dx dy s
  else if presenting then s
  else updateHoverWith (pick (ndcOfClient rect cx cy)) s

/-! ## Continuous locomotion -/

/-- the `MOVE_SPEED` constant (units per second). -/
def MOVE_SPEED : ℝ := 3

/-- The per-axis thumbstick deadzone:
`Math.abs(axes[i]) > 0.15 ? axes[i] : 0`. -/
noncomputable def deadzone (v : ℝ) : ℝ := if 0.15 < |v| then v else 0

/-- The `for (const source of session.inputSources)` loop head: skip
sources without a gamepad (`continue`), apply the deadzone, and stop at
the first source whose deadzoned axes are not both zero (`break`).
A source is `none` when `source.gamepad` is null, `some (a2, a3)` for its
`gamepad.axes[2]`, `axes[3]` reading. -/
noncomputable def thumbFirst : List (Option (ℝ × ℝ)) → Option (ℝ × ℝ)
  | [] => none
  | none :: rest => thumbFirst rest
  | some (a2, a3) :: rest =>
    if deadzone a2 = 0 ∧ deadzone a3 = 0 then thumbFirst rest
    else some (deadzone a2, deadzone a3)

/-- the lines `_moveVec.set(x, 0, z).applyQuaternion(headQuat)` and
`_moveVec.y = 0` — the head-rotated input projected onto the ground
plane. -/
def groundVec (head : Quat) (x z : ℝ) : Vec3 :=
  let r := Vec3.applyQuaternion head ⟨x, 0, z⟩
  ⟨r.x, 0, r.z⟩

/-- The thumbstick displacement for one frame once the deadzoned input
`(x, z)` passed the `x !== 0 || z !== 0` guard:
`_moveVec.normalize().multiplyScalar(MOVE_SPEED * dt * Math.max(|x|, |z|))`. -/
noncomputable def thumbDelta (head : Quat) (x z dt : ℝ) : Vec3 :=
  (MOVE_SPEED * dt * max |x| |z|) • Vec3.normalize (groundVec head x z)

/-- The whole VR-locomotion block of `render`: the first input source
that wins the deadzone drives the frame's displacement; with no such
source the rig does not move. -/
noncomputable def vrDisplacement (head : Quat) (dt : ℝ)
    (sources : List (Option (ℝ × ℝ))) : Vec3 :=
  match thumbFirst sources with
  | none => 0
  | some (x, z) => thumbDelta head x z dt

/-- The desktop WASD/arrow-key block of `render`: accumulate the key
state into `(mx, mz)`, and when nonzero move by
`set(mx, 0, mz).normalize().applyAxisAngle((0,1,0), yaw)` scaled by
`MOVE_SPEED * dt`. -/
noncomputable def keyDisplacement (keys : Key → Bool) (yaw dt : ℝ) : Vec3 :=
  let mz : ℝ := (if keys Key.keyW || keys Key.arrowUp then -1 else 0)
              + (if keys Key.keyS || keys Key.arrowDown then 1 else 0)
  let mx : ℝ := (if keys Key.keyA || keys Key.arrowLeft then -1 else 0)
              + (if keys Key.keyD || keys Key.arrowRight then 1 else 0)
  if mx = 0 ∧ mz = 0 then 0
  else (MOVE_SPEED * dt) • applyAxisAngleY yaw (Vec3.normalize ⟨mx, 0, mz⟩)

/-- The marker-pulse block of `render`: the hovered marker is pinned at
opacity 0.35 (overlay 0.9), the others breathe with `elapsedTime`. -/
noncomputable def pulse (elapsed : ℝ) (hovered : Option ℕ)
    (markers : ℕ → MarkerVis) : ℕ → MarkerVis := fun i =>
  let m := markers i
  if hovered = some i then
    { m with opacity := 0.35, overlayOpacity := 0.9 }
  else
    { m with
      opacity := 0.08 + 0.08 * Real.sin (elapsed * 2 + i),
      overlayOpacity := 0.35 + 0.2 * Real.sin (elapsed * 2 + i) }

/-- One `render` frame: advance `elapsedTime`, pulse the markers, then
either VR thumbstick locomotion (while presenting) or desktop WASD
movement (while not).  The `camera.rotation.set(pitch, yaw, 0)` line only
projects `yaw`/`pitch` into the display and touches no controller state. -/
noncomputable def frameStep (presenting : Bool) (dt : ℝ)
    (sources : List (Option (ℝ × ℝ))) (head : Quat)
    (s : WarRoomState) : WarRoomState :=
  let s1 := { s with
    elapsed := s.elapsed + dt,
    markers := pulse (s.elapsed + dt) s.hovered s.markers }
  if presenting then
    { s1 with pos := s1.pos + vrDisplacement head dt sources }
  else
    { s1 with pos := s1.pos + keyDisplacement s1.keysDown s1.yaw dt }

/-! ## The event loop -/

/-- One input event or animation frame.  Each constructor carries what the
browser / WebXR environment supplies to the handler: the presenting flag,
the pick results of the external raycaster, client coordinates, thumbstick
readings per input source, and the head orientation. -/
inductive Ev where
  | click (presenting : Bool) (targets : ℕ → Vec3)
      (pick : ℝ × ℝ → Option ℕ) (rect : Rect) (cx cy : ℝ)
  | lockChange (locked : Bool)
  | mousemove (presenting : Bool) (dx dy : ℝ)
      (pick : ℝ × ℝ → Option ℕ) (rect : Rect) (cx cy : ℝ)
  | keydown (k : Key)
  | keyup (k : Key)
  | select (pick : Option Vec3)
  | frame (presenting : Bool) (dt : ℝ)
      (sources : List (Option (ℝ × ℝ))) (head : Quat)

/-- Dispatch one event to its handler (the `addEventListener` wiring plus
the `setAnimationLoop(render)` frame). `pointerlockchange` refreshes the
lock flag and the cursor style. -/
noncomputable def step (s : WarRoomState) : Ev → WarRoomState
  | Ev.click presenting targets pick rect cx cy =>
    clickHandler presenting targets pick rect cx cy s
  | Ev.lockChange locked =>
    { s with isPointerLocked := locked,
             cursor := if locked then Cursor.hidden else Cursor.default }
  | Ev.mousemove presenting dx dy pick rect cx cy =>
    mousemoveHandler presenting dx dy pick rect cx cy s
  | Ev.keydown k => { s with keysDown := Function.update s.keysDown k true }
  | Ev.keyup k => { s with keysDown := Function.update s.keysDown k false }
  | Ev.select pick => onSelect pick s
  | Ev.frame presenting dt sources head => frameStep presenting dt sources head s

/-- The state right after `init()`: rig at the origin, zero look angles,
no lock, no hover, resting marker visuals (disc opacity 0.15, overlay
opacity 0.5), no keys held. -/
def initState : WarRoomState where
  pos := 0
  yaw := 0
  pitch := 0
  isPointerLocked := false
  lockRequested := false
  hovered := none
  markers := fun _ =>
    { color := 0x80ffea, opacity := 0.15, scale := 1,
      overlayColor := 0x80ffea, overlayOpacity := 0.5 }
  cursor := Cursor.default
  keysDown := fun _ => false
  elapsed := 0

/-- Events that reach the controller while a VR session is presenting and
that carry desktop keyboard/mouse input or an idle frame: clicks and
mouse moves with `isPresenting` true, key transitions, pointer-lock
release, and frames (presenting, with every thumbstick inside the
deadzone — the session is driving, the desktop is not). -/
def VrDesktopQuiet : Ev → Prop
  | Ev.click true _ _ _ _ _ => True
  | Ev.mousemove true _ _ _ _ _ _ => True
  | Ev.keydown _ => True
  | Ev.keyup _ => True
  | Ev.lockChange false => True
  | Ev.frame true _ sources _ => thumbFirst sources = none
  | _ => False

/-- Key state with forward (`KeyW`) and left (`KeyA`) held. -/
def keysWA : Key → Bool
  | Key.keyW => true
  | Key.keyA => true
  | _ => false

/-- Key state with only forward (`KeyW`) held. -/
def keysW : Key → Bool
  | Key.keyW => true
  | _ => false

/-- The unit direction "forward" (`mz -= 1`, i.e. `(0,0,-1)`). -/
def forwardDir : Vec3 := ⟨0, 0, -1⟩

/-- The unit direction "left" (`mx -= 1`, i.e. `(-1,0,0)`). -/
def leftDir : Vec3 := ⟨-1, 0, 0⟩

/-- A pure-pitch head orientation: rotation about X with
`sin(pitch/2) = 3/5`, `cos(pitch/2) = 4/5` (a unit quaternion with yaw
and roll both zero in the YXZ Euler convention the camera uses). -/
noncomputable def pitchQuat : Quat := ⟨3 / 5, 0, 0, 4 / 5⟩

/-! ## Helper lemmas -/

theorem Vec3.zero_def : (0 : Vec3) = ⟨0, 0, 0⟩ := rfl

theorem Vec3.add_def (a b : Vec3) : a + b = ⟨a.x + b.x, a.y + b.y, a.z + b.z⟩ := rfl

theorem Vec3.smul_def (c : ℝ) (v : Vec3) : c • v = ⟨c * v.x, c * v.y, c * v.z⟩ := rfl

@[simp] theorem Vec3.add_zero_v (a : Vec3) : a + 0 = a := by
  cases a; simp [Vec3.add_def, Vec3.zero_def]

/-- Rotation about Y in closed (matrix) form; equal to the quaternion
path by the half-angle identities. -/
theorem applyAxisAngleY_apply (θ : ℝ) (v : Vec3) :
    applyAxisAngleY θ v =
      ⟨v.x * Real.cos θ + v.z * Real.sin θ, v.y,
       v.z * Real.cos θ - v.x * Real.sin θ⟩ := by
  have hs : Real.sin θ = 2 * Real.sin (θ / 2) * Real.cos (θ / 2) := by
    have h := Real.sin_two_mul (θ / 2)
    rw [show 2 * (θ / 2) = θ by ring] at h
    exact h
  have hc : Real.cos θ = 1 - 2 * Real.sin (θ / 2) ^ 2 := by
    have h := Real.cos_two_mul (θ / 2)
    rw [show 2 * (θ / 2) = θ by ring] at h
    have hp := Real.sin_sq_add_cos_sq (θ / 2)
    nlinarith [h, hp]
  simp only [applyAxisAngleY, axisAngleYQuat, Vec3.applyQuaternion, Vec3.mk.injEq]
  refine ⟨?_, by ring, ?_⟩
  · rw [hs, hc]; ring
  · rw [hs, hc]; ring

theorem normSq_applyAxisAngleY (θ : ℝ) (v : Vec3) :
    Vec3.normSq (applyAxisAngleY θ v) = Vec3.normSq v := by
  rw [applyAxisAngleY_apply]
  have hp := Real.sin_sq_add_cos_sq θ
  simp only [Vec3.normSq]
  nlinarith [hp]

theorem vlen_applyAxisAngleY (θ : ℝ) (v : Vec3) :
    Vec3.vlen (applyAxisAngleY θ v) = Vec3.vlen v := by
  unfold Vec3.vlen
  rw [normSq_applyAxisAngleY]

theorem applyQuaternion_smul (q : Quat) (c : ℝ) (v : Vec3) :
    Vec3.applyQuaternion q (c • v) = c • Vec3.applyQuaternion q v := by
  simp only [Vec3.applyQuaternion, Vec3.smul_def, Vec3.mk.injEq]
  refine ⟨by ring, by ring, by ring⟩

theorem normSq_nonneg (v : Vec3) : 0 ≤ Vec3.normSq v := by
  unfold Vec3.normSq; positivity

theorem normSq_eq_zero_iff (v : Vec3) : Vec3.normSq v = 0 ↔ v = 0 := by
  constructor
  · intro h
    have hsum : v.x ^ 2 + v.y ^ 2 + v.z ^ 2 = 0 := h
    have hx : v.x = 0 := by
      have h2 : v.x ^ 2 = 0 := by nlinarith [sq_nonneg v.x, sq_nonneg v.y, sq_nonneg v.z]
      exact pow_eq_zero_iff (two_ne_zero) |>.mp h2
    have hy : v.y = 0 := by
      have h2 : v.y ^ 2 = 0 := by nlinarith [sq_nonneg v.x, sq_nonneg v.y, sq_nonneg v.z]
      exact pow_eq_zero_iff (two_ne_zero) |>.mp h2
    have hz : v.z = 0 := by
      have h2 : v.z ^ 2 = 0 := by nlinarith [sq_nonneg v.x, sq_nonneg v.y, sq_nonneg v.z]
      exact pow_eq_zero_iff (two_ne_zero) |>.mp h2
    cases v
    simp only [Vec3.zero_def, Vec3.mk.injEq]
    exact ⟨hx, hy, hz⟩
  · intro h; subst h; simp [Vec3.normSq, Vec3.zero_def]

theorem vlen_pos_of_ne_zero {v : Vec3} (h : v ≠ 0) : 0 < Vec3.vlen v := by
  unfold Vec3.vlen
  apply Real.sqrt_pos.mpr
  rcases lt_or_eq_of_le (normSq_nonneg v) with hlt | heq
  · exact hlt
  · exact absurd ((normSq_eq_zero_iff v).mp heq.symm) h

theorem normSq_smul (c : ℝ) (v : Vec3) :
    Vec3.normSq (c • v) = c ^ 2 * Vec3.normSq v := by
  simp only [Vec3.smul_def, Vec3.normSq]; ring

theorem vlen_smul (c : ℝ) (v : Vec3) :
    Vec3.vlen (c • v) = |c| * Vec3.vlen v := by
  unfold Vec3.vlen
  rw [normSq_smul, Real.sqrt_mul (sq_nonneg c), Real.sqrt_sq_eq_abs]

theorem vlen_normalize {v : Vec3} (h : v ≠ 0) :
    Vec3.vlen (Vec3.normalize v) = 1 := by
  unfold Vec3.normalize
  rw [vlen_smul]
  have hpos := vlen_pos_of_ne_zero h
  rw [abs_of_pos (by positivity)]
  field_simp

theorem normalize_smul_pos {k : ℝ} (hk : 0 < k) (v : Vec3) :
    Vec3.normalize (k • v) = Vec3.normalize v := by
  unfold Vec3.normalize
  rw [vlen_smul, abs_of_pos hk]
  rcases eq_or_ne (Vec3.vlen v) 0 with hv | hv
  · simp [hv, Vec3.smul_def]
  · simp only [Vec3.smul_def, Vec3.mk.injEq]
    refine ⟨?_, ?_, ?_⟩ <;> field_simp <;> ring

theorem updateHoverWith_hovered (nh : Option ℕ) (s : WarRoomState) :
    (updateHoverWith nh s).hovered = nh := by
  by_cases h : nh = s.hovered <;> simp [updateHoverWith, h]

theorem updateHoverWith_isPointerLocked (nh : Option ℕ) (s : WarRoomState) :
    (updateHoverWith nh s).isPointerLocked = s.isPointerLocked := by
  by_cases h : nh = s.hovered <;> simp [updateHoverWith, h]

theorem updateHoverWith_idem (nh : Option ℕ) (s : WarRoomState) :
    updateHoverWith nh (updateHoverWith nh s) = updateHoverWith nh s := by
  by_cases h : nh = s.hovered <;> simp [updateHoverWith, h]

theorem updateHoverWith_pos (nh : Option ℕ) (s : WarRoomState) :
    (updateHoverWith nh s).pos = s.pos := by
  by_cases h : nh = s.hovered <;> simp [updateHoverWith, h]

theorem thumbDelta_y (head : Quat) (x z dt : ℝ) : (thumbDelta head x z dt).y = 0 := by
  simp [thumbDelta, Vec3.normalize, Vec3.smul_def, groundVec]

theorem vrDisplacement_y (head : Quat) (dt : ℝ) (sources : List (Option (ℝ × ℝ))) :
    (vrDisplacement head dt sources).y = 0 := by
  unfold vrDisplacement
  cases thumbFirst sources with
  | none => rfl
  | some p => exact thumbDelta_y head p.1 p.2 dt

theorem smul_rotY_normalize_y (c θ a b : ℝ) :
    (c • applyAxisAngleY θ (Vec3.normalize ⟨a, 0, b⟩)).y = 0 := by
  simp [applyAxisAngleY_apply, Vec3.normalize, Vec3.smul_def]

theorem keyDisplacement_y (keys : Key → Bool) (yaw dt : ℝ) :
    (keyDisplacement keys yaw dt).y = 0 := by
  simp only [keyDisplacement]
  rw [apply_ite Vec3.y, smul_rotY_normalize_y]
  simp [Vec3.zero_def]

theorem teleport_pos_y (o : Option Vec3) (s : WarRoomState) (h : s.pos.y = 0) :
    (teleport o s).pos.y = 0 := by
  cases o with
  | none => exact h
  | some t => rfl

theorem step_pos_y (e : Ev) (s : WarRoomState) (h : s.pos.y = 0) :
    (step s e).pos.y = 0 := by
  cases e with
  | click presenting targets pick rect cx cy =>
    simp only [step, clickHandler]
    split
    · exact h
    · split
      · exact teleport_pos_y _ _ h
      · cases pick (ndcOfClient rect cx cy) with
        | some i => exact teleport_pos_y _ _ h
        | none => exact h
  | lockChange locked => exact h
  | mousemove presenting dx dy pick rect cx cy =>
    simp only [step, mousemoveHandler]
    split
    · exact h
    · split
      · exact h
      · rw [updateHoverWith_pos]; exact h
  | keydown k => exact h
  | keyup k => exact h
  | select pick => exact teleport_pos_y _ _ h
  | frame presenting dt sources head =>
    simp only [step, frameStep]
    split
    · simp only [Vec3.add_def]
      rw [vrDisplacement_y]
      simpa using h
    · simp only [Vec3.add_def]
      rw [keyDisplacement_y]
      simpa using h

theorem deadzone_of_small {v : ℝ} (h : |v| ≤ 0.15) : deadzone v = 0 := by
  unfold deadzone
  rw [if_neg]
  exact not_lt.mpr h

theorem thumbFirst_below_deadzone : thumbFirst [some (1 / 10, 1 / 10)] = none := by
  have habs : |(1 / 10 : ℝ)| = 1 / 10 := abs_of_nonneg (by norm_num)
  have h : deadzone (1 / 10 : ℝ) = 0 := deadzone_of_small (by rw [habs]; norm_num)
  simp only [thumbFirst, h]
  norm_num [thumbFirst]

theorem applyAxisAngleY_zero (v : Vec3) : applyAxisAngleY 0 v = v := by
  rw [applyAxisAngleY_apply]
  cases v
  simp

theorem crossY_smul_left (c : ℝ) (u v : Vec3) :
    crossY (c • u) v = c * crossY u v := by
  simp only [crossY, Vec3.smul_def]
  ring

theorem crossY_self (v : Vec3) : crossY v v = 0 := by
  simp only [crossY]
  ring

theorem groundVec_smul (head : Quat) (k x z : ℝ) :
    groundVec head (k * x) (k * z) = k • groundVec head x z := by
  have h1 : (⟨k * x, 0, k * z⟩ : Vec3) = k • (⟨x, 0, z⟩ : Vec3) := by
    simp [Vec3.smul_def]
  simp only [groundVec, h1, applyQuaternion_smul]
  simp [Vec3.smul_def]

theorem quiet_step (e : Ev) (s : WarRoomState)
    (hl : s.isPointerLocked = false) (hq : VrDesktopQuiet e) :
    (step s e).pos = s.pos ∧ (step s e).yaw = s.yaw
    ∧ (step s e).pitch = s.pitch
    ∧ (step s e).lockRequested = s.lockRequested
    ∧ (step s e).isPointerLocked = false := by
  cases e with
  | click presenting targets pick rect cx cy =>
    cases presenting with
    | false => simp [VrDesktopQuiet] at hq
    | true => simp [step, clickHandler, hl]
  | lockChange locked =>
    cases locked with
    | false => simp [step, hl]
    | true => simp [VrDesktopQuiet] at hq
  | mousemove presenting dx dy pick rect cx cy =>
    cases presenting with
    | false => simp [VrDesktopQuiet] at hq
    | true => simp [step, mousemoveHandler, hl]
  | keydown k => simp [step, hl]
  | keyup k => simp [step, hl]
  | select pick => simp [VrDesktopQuiet] at hq
  | frame presenting dt sources head =>
    cases presenting with
    | false => simp [VrDesktopQuiet] at hq
    | true =>
      have hnone : thumbFirst sources = none := hq
      simp [step, frameStep, vrDisplacement, hnone, hl]

/-! ## Claim theorems -/

/-- Claim C1: every teleport pick that hits a target moves the rig to
exactly `(target.x, 0, target.z)` and leaves yaw and pitch bit-for-bit
unchanged; a missed pick is a guarded no-op.  This is shown for the
shared `teleport` action and for all three pick paths: the desktop
unlocked click, the desktop pointer-locked (crosshair) click, and the VR
controller select.  (On the unlocked path the handler may additionally
request pointer capture after a miss — claim C5 — so there the viewer
frame, the part teleportation owns, is compared.) -/
theorem teleport_exact_and_guarded_noop :
    (∀ (t : Vec3) (s : WarRoomState),
        teleport (some t) s = { s with pos := ⟨t.x, 0, t.z⟩ }
        ∧ (teleport (some t) s).yaw = s.yaw
        ∧ (teleport (some t) s).pitch = s.pitch)
    ∧ (∀ s : WarRoomState, teleport none s = s)
    ∧ (∀ (targets : ℕ → Vec3) (pick : ℝ × ℝ → Option ℕ) (rect : Rect)
        (cx cy : ℝ) (s : WarRoomState),
        viewerOf (clickHandler false targets pick rect cx cy
            { s with isPointerLocked := false })
          = viewerOf (teleport ((pick (ndcOfClient rect cx cy)).map targets)
              { s with isPointerLocked := false }))
    ∧ (∀ (targets : ℕ → Vec3) (pick : ℝ × ℝ → Option ℕ) (rect : Rect)
        (cx cy : ℝ) (s : WarRoomState),
        clickHandler false targets pick rect cx cy
            { s with isPointerLocked := true }
          = teleport ((pick (0, 0)).map targets)
              { s with isPointerLocked := true })
    ∧ (∀ (pick : Option Vec3) (s : WarRoomState), onSelect pick s = teleport pick s) := by
  refine ⟨fun t s => ⟨rfl, rfl, rfl⟩, fun s => rfl, ?_, ?_, fun pick s => rfl⟩
  · intro targets pick rect cx cy s
    cases hp : pick (ndcOfClient rect cx cy) with
    | none => simp [clickHandler, hp, teleport, viewerOf]
    | some i => simp [clickHandler, hp, teleport, viewerOf]
  · intro targets pick rect cx cy s
    simp [clickHandler]

/-- Claim C5: a desktop click is a single decision point.  Unlocked: the
handler picks from the event's actual cursor position first; a hit
teleports and leaves the capture request untouched, and only a miss
requests pointer capture.  Locked: the handler re-picks from the
view-center crosshair ray at NDC `(0, 0)` instead of the cursor. -/
theorem click_single_decision_point :
    ∀ (targets : ℕ → Vec3) (pick : ℝ × ℝ → Option ℕ) (rect : Rect)
      (cx cy : ℝ) (s : WarRoomState),
      (clickHandler false targets pick rect cx cy { s with isPointerLocked := false }
        = match pick (ndcOfClient rect cx cy) with
          | some i => { s with isPointerLocked := false,
                               pos := ⟨(targets i).x, 0, (targets i).z⟩ }
          | none => { s with isPointerLocked := false, lockRequested := true })
      ∧ clickHandler false targets pick rect cx cy { s with isPointerLocked := true }
        = teleport ((pick (0, 0)).map targets) { s with isPointerLocked := true } := by
  intro targets pick rect cx cy s
  constructor
  · cases hp : pick (ndcOfClient rect cx cy) with
    | none => simp [clickHandler, hp]
    | some i => simp [clickHandler, hp, teleport]
  · simp [clickHandler]

/-- Claim C4: under any burst of pointer-locked mouse-look deltas, pitch
lands in `[-π/2, π/2]` after every update (the last event of any nonempty
burst is a clamp, and every prefix is itself such a burst), while yaw
accumulates the exact unclamped sum `-0.002 · Σ movementX` and exceeds
any bound for a suitable delta. -/
theorem pitch_clamped_yaw_unbounded :
    ∀ (s : WarRoomState) (d : ℝ × ℝ) (l : List (ℝ × ℝ)),
      (-(Real.pi / 2) ≤ (mouseLookFold s (d :: l)).pitch
        ∧ (mouseLookFold s (d :: l)).pitch ≤ Real.pi / 2)
      ∧ (mouseLookFold s (d :: l)).yaw
          = s.yaw - 0.002 * (((d :: l).map Prod.fst).sum)
      ∧ ∀ B : ℝ, ∃ dx : ℝ, B < (applyMouseLook dx 0 s).yaw := by
  have hstep : ∀ (dx dy : ℝ) (t : WarRoomState),
      -(Real.pi / 2) ≤ (applyMouseLook dx dy t).pitch
      ∧ (applyMouseLook dx dy t).pitch ≤ Real.pi / 2 := by
    intro dx dy t
    have hpi : (0 : ℝ) < Real.pi := Real.pi_pos
    constructor
    · exact le_max_left _ _
    · exact max_le (by linarith) (min_le_left _ _)
  have hbound : ∀ (l : List (ℝ × ℝ)) (s : WarRoomState) (d : ℝ × ℝ),
      -(Real.pi / 2) ≤ (mouseLookFold s (d :: l)).pitch
      ∧ (mouseLookFold s (d :: l)).pitch ≤ Real.pi / 2 := by
    intro l
    induction l with
    | nil =>
      intro s d
      simpa [mouseLookFold] using hstep d.1 d.2 s
    | cons d2 l2 ih =>
      intro s d
      simpa [mouseLookFold] using ih (applyMouseLook d.1 d.2 s) d2
  have hyaw : ∀ (l : List (ℝ × ℝ)) (s : WarRoomState),
      (mouseLookFold s l).yaw = s.yaw - 0.002 * ((l.map Prod.fst).sum) := by
    intro l
    induction l with
    | nil => intro s; simp [mouseLookFold]
    | cons d2 l2 ih =>
      intro s
      have h2 := ih (applyMouseLook d2.1 d2.2 s)
      simp only [mouseLookFold] at h2 ⊢
      rw [List.foldl_cons, h2]
      simp only [applyMouseLook, List.map_cons, List.sum_cons]
      ring
  intro s d l
  refine ⟨hbound l s d, hyaw (d :: l) s, ?_⟩
  intro B
  refine ⟨(s.yaw - B - 1) / 0.002, ?_⟩
  have h2 : ((0.002 : ℝ)) ≠ 0 := by norm_num
  simp only [applyMouseLook]
  have : (s.yaw - B - 1) / 0.002 * 0.002 = s.yaw - B - 1 := by
    field_simp
  rw [this]
  linarith

/-- Claim C7: the desktop hover update is idempotent under repetition —
replaying the same unlocked, non-presenting `mousemove` (same pick
function and coordinates, hence the same pick result) leaves the state of
the first run exactly as it is: the second run finds the pick equal to
the stored hovered marker and performs no further highlight transition. -/
theorem hover_update_idempotent :
    ∀ (dx dy : ℝ) (pick : ℝ × ℝ → Option ℕ) (rect : Rect) (cx cy : ℝ)
      (s : WarRoomState),
      step (step { s with isPointerLocked := false }
              (Ev.mousemove false dx dy pick rect cx cy))
           (Ev.mousemove false dx dy pick rect cx cy)
        = step { s with isPointerLocked := false }
            (Ev.mousemove false dx dy pick rect cx cy) := by
  intro dx dy pick rect cx cy s
  have h0 : ({ s with isPointerLocked := false } : WarRoomState).isPointerLocked = false := rfl
  simp only [step, mousemoveHandler, h0, updateHoverWith_isPointerLocked,
    Bool.false_eq_true, if_false]
  exact updateHoverWith_idem (pick (ndcOfClient rect cx cy)) _

/-- Claim C10: hover state is frozen whenever the hover branch cannot
run.  While the pointer is locked, a `mousemove` (any presenting flag)
changes neither the hovered marker nor any marker's highlight; while a
session is presenting without pointer lock, a `mousemove` changes nothing
at all.  Hover detection therefore runs only unlocked and outside VR. -/
theorem hover_frozen_while_locked_or_presenting :
    ∀ (p : Bool) (dx dy : ℝ) (pick : ℝ × ℝ → Option ℕ) (rect : Rect)
      (cx cy : ℝ) (s : WarRoomState),
      ((step { s with isPointerLocked := true }
          (Ev.mousemove p dx dy pick rect cx cy)).hovered = s.hovered
        ∧ (step { s with isPointerLocked := true }
            (Ev.mousemove p dx dy pick rect cx cy)).markers = s.markers)
      ∧ step { s with isPointerLocked := false }
          (Ev.mousemove true dx dy pick rect cx cy)
        = { s with isPointerLocked := false } := by
  intro p dx dy pick rect cx cy s
  refine ⟨⟨?_, ?_⟩, ?_⟩ <;> simp [step, mousemoveHandler, applyMouseLook]

/-- Claim C6: the viewer never leaves the ground plane.  Both continuous
movement vectors have zero Y component, teleport writes Y = 0, and from
any state with Y = 0 every event sequence keeps the rig's Y at 0. -/
theorem ground_plane_invariant :
    (∀ (head : Quat) (dt : ℝ) (sources : List (Option (ℝ × ℝ))),
        (vrDisplacement head dt sources).y = 0)
    ∧ (∀ (keys : Key → Bool) (yaw dt : ℝ), (keyDisplacement keys yaw dt).y = 0)
    ∧ (∀ (evs : List Ev) (s : WarRoomState), s.pos.y = 0 →
        (evs.foldl step s).pos.y = 0) := by
  refine ⟨vrDisplacement_y, keyDisplacement_y, ?_⟩
  intro evs
  induction evs with
  | nil => intro s h; exact h
  | cons e rest ih =>
    intro s h
    exact ih (step s e) (step_pos_y e s h)

/-- Witness for claim C6: the ground-plane invariant evaluated on a
concrete trace (a VR teleport to a target with y = 3, a desktop frame
with W held, a key press) from the initial state. -/
theorem ground_plane_invariant_witness :
    initState.pos.y = 0
    ∧ (([Ev.keydown Key.keyW,
         Ev.select (some ⟨5, 3, 2⟩),
         Ev.frame false (1 / 60) [] ⟨0, 0, 0, 1⟩] : List Ev).foldl
          step initState).pos.y = 0 :=
  ⟨rfl, ground_plane_invariant.2.2 _ initState rfl⟩

/-- Claim C9: thumbstick displacement comes from the first input source
(in list order) whose post-deadzone reading is non-zero: sources without
a gamepad are skipped, fully-deadzoned sources are skipped, and once a
source qualifies the frame's displacement is exactly that source's and
is independent of every later source. -/
theorem first_controller_wins :
    (∀ rest : List (Option (ℝ × ℝ)), thumbFirst (none :: rest) = thumbFirst rest)
    ∧ (∀ (a b : ℝ) (rest : List (Option (ℝ × ℝ))),
        deadzone a = 0 → deadzone b = 0 →
        thumbFirst (some (a, b) :: rest) = thumbFirst rest)
    ∧ (∀ (a b : ℝ) (rest rest2 : List (Option (ℝ × ℝ))) (head : Quat) (dt : ℝ),
        ¬(deadzone a = 0 ∧ deadzone b = 0) →
        thumbFirst (some (a, b) :: rest) = some (deadzone a, deadzone b)
        ∧ vrDisplacement head dt (some (a, b) :: rest)
            = thumbDelta head (deadzone a) (deadzone b) dt
        ∧ vrDisplacement head dt (some (a, b) :: rest)
            = vrDisplacement head dt (some (a, b) :: rest2)) := by
  refine ⟨fun rest => rfl, ?_, ?_⟩
  · intro a b rest h1 h2
    simp [thumbFirst, h1, h2]
  · intro a b rest rest2 head dt h
    have hfirst : ∀ r : List (Option (ℝ × ℝ)),
        thumbFirst (some (a, b) :: r) = some (deadzone a, deadzone b) := by
      intro r; simp [thumbFirst, h]
    refine ⟨hfirst rest, ?_, ?_⟩
    · simp [vrDisplacement, hfirst rest]
    · simp [vrDisplacement, hfirst rest, hfirst rest2]

/-- Witness for claim C9: a first source reading `(1, 0)` wins over a
second source reading `(1, 1)`, and removing the second source leaves the
frame displacement unchanged. -/
theorem first_controller_wins_witness :
    ¬(deadzone 1 = 0 ∧ deadzone 0 = 0)
    ∧ (thumbFirst [some (1, 0), some (1, 1)] = some (deadzone 1, deadzone 0)
      ∧ vrDisplacement ⟨0, 0, 0, 1⟩ 1 [some (1, 0), some (1, 1)]
          = thumbDelta ⟨0, 0, 0, 1⟩ (deadzone 1) (deadzone 0) 1
      ∧ vrDisplacement ⟨0, 0, 0, 1⟩ 1 [some (1, 0), some (1, 1)]
          = vrDisplacement ⟨0, 0, 0, 1⟩ 1 [some (1, 0)]) := by
  have h : ¬(deadzone 1 = 0 ∧ deadzone 0 = 0) := by
    intro hc
    have h1 : deadzone 1 = 1 := by norm_num [deadzone]
    rw [h1] at hc
    exact one_ne_zero hc.1
  exact ⟨h, first_controller_wins.2.2 1 0 [some (1, 1)] [] ⟨0, 0, 0, 1⟩ 1 h⟩

/-- Claim C8: with forward and left held, the desktop WASD displacement
is `MOVE_SPEED · dt` times the yaw-rotated, normalized sum of the two
unit directions: a diagonal with the same magnitude `MOVE_SPEED · dt` a
single held key produces, not double. -/
theorem keyboard_diagonal_movement :
    ∀ (yaw dt : ℝ), 0 ≤ dt →
      keyDisplacement keysWA yaw dt
          = (MOVE_SPEED * dt) • applyAxisAngleY yaw (Vec3.normalize (forwardDir + leftDir))
      ∧ Vec3.vlen (keyDisplacement keysWA yaw dt) = MOVE_SPEED * dt
      ∧ Vec3.vlen (keyDisplacement keysW yaw dt) = MOVE_SPEED * dt := by
  intro yaw dt hdt
  have hsum : forwardDir + leftDir = (⟨-1, 0, -1⟩ : Vec3) := by
    simp [forwardDir, leftDir, Vec3.add_def]
  have hWA : keyDisplacement keysWA yaw dt
      = (MOVE_SPEED * dt) • applyAxisAngleY yaw (Vec3.normalize ⟨-1, 0, -1⟩) := by
    simp [keyDisplacement, keysWA]
  have hW : keyDisplacement keysW yaw dt
      = (MOVE_SPEED * dt) • applyAxisAngleY yaw (Vec3.normalize ⟨0, 0, -1⟩) := by
    simp [keyDisplacement, keysW]
  have hne1 : (⟨-1, 0, -1⟩ : Vec3) ≠ 0 := by
    intro hc
    rw [Vec3.zero_def] at hc
    have := congrArg Vec3.x hc
    norm_num at this
  have hne2 : (⟨0, 0, -1⟩ : Vec3) ≠ 0 := by
    intro hc
    rw [Vec3.zero_def] at hc
    have := congrArg Vec3.z hc
    norm_num at this
  have habs : |MOVE_SPEED * dt| = MOVE_SPEED * dt := by
    apply abs_of_nonneg
    have : (0 : ℝ) ≤ MOVE_SPEED := by norm_num [MOVE_SPEED]
    positivity
  refine ⟨by rw [hWA, hsum], ?_, ?_⟩
  · rw [hWA, vlen_smul, vlen_applyAxisAngleY, vlen_normalize hne1, habs, mul_one]
  · rw [hW, vlen_smul, vlen_applyAxisAngleY, vlen_normalize hne2, habs, mul_one]

/-- Witness for claim C8: the diagonal-movement theorem evaluated at
`yaw = 0`, `dt = 1`. -/
theorem keyboard_diagonal_movement_witness :
    (0 : ℝ) ≤ 1
    ∧ (keyDisplacement keysWA 0 1
          = (MOVE_SPEED * 1) • applyAxisAngleY 0 (Vec3.normalize (forwardDir + leftDir))
      ∧ Vec3.vlen (keyDisplacement keysWA 0 1) = MOVE_SPEED * 1
      ∧ Vec3.vlen (keyDisplacement keysW 0 1) = MOVE_SPEED * 1) :=
  ⟨by norm_num, keyboard_diagonal_movement 0 1 (by norm_num)⟩

/-- Claim C3 (amended): thumbstick locomotion applies a per-axis 0.15
deadzone (a reading of 0.10 on both axes produces no displacement), keeps
the movement vector on the ground plane, and scales it to exactly
`MOVE_SPEED · dt · max(|x|, |z|)`, proportional in the deflection (an
input scaled by `k` moves `k` times as far).  The direction is the
full-head-orientation rotation of the input projected onto the ground
plane; when the head orientation is a pure yaw this is precisely the
yaw rotation of the input. -/
theorem thumbstick_deadzone_ground_scaling :
    thumbFirst [some (1 / 10, 1 / 10)] = none
    ∧ (∀ (head : Quat) (x z dt : ℝ), (thumbDelta head x z dt).y = 0)
    ∧ (∀ (head : Quat) (x z dt : ℝ), 0 ≤ dt → groundVec head x z ≠ 0 →
        Vec3.vlen (thumbDelta head x z dt) = MOVE_SPEED * dt * max |x| |z|)
    ∧ (∀ (θ x z dt : ℝ), thumbDelta (axisAngleYQuat θ) x z dt
        = (MOVE_SPEED * dt * max |x| |z|) •
            Vec3.normalize (applyAxisAngleY θ ⟨x, 0, z⟩))
    ∧ (∀ (head : Quat) (x z dt k : ℝ), 0 < k →
        thumbDelta head (k * x) (k * z) dt = k • thumbDelta head x z dt) := by
  refine ⟨thumbFirst_below_deadzone, thumbDelta_y, ?_, ?_, ?_⟩
  · intro head x z dt hdt hg
    unfold thumbDelta
    rw [vlen_smul, vlen_normalize hg, mul_one]
    apply abs_of_nonneg
    have hmax : (0 : ℝ) ≤ max |x| |z| := le_trans (abs_nonneg x) (le_max_left _ _)
    have hms : (0 : ℝ) ≤ MOVE_SPEED := by norm_num [MOVE_SPEED]
    positivity
  · intro θ x z dt
    have hg : groundVec (axisAngleYQuat θ) x z = applyAxisAngleY θ ⟨x, 0, z⟩ := by
      have hr := applyAxisAngleY_apply θ ⟨x, 0, z⟩
      simp only [applyAxisAngleY] at hr
      simp only [groundVec, hr, applyAxisAngleY_apply]
    unfold thumbDelta
    rw [hg]
  · intro head x z dt k hk
    have habs : |k| = k := abs_of_pos hk
    have hmax : max |k * x| |k * z| = k * max |x| |z| := by
      rw [abs_mul, abs_mul, habs, mul_max_of_nonneg _ _ (le_of_lt hk)]
    unfold thumbDelta
    rw [groundVec_smul, normalize_smul_pos hk, hmax]
    simp only [Vec3.smul_def, Vec3.mk.injEq]
    refine ⟨by ring, by ring, by ring⟩

/-- Witness for claim C3: magnitude and proportionality evaluated with
the identity head orientation at input `(3/5, 4/5)`, `dt = 1`, `k = 1/2`. -/
theorem thumbstick_deadzone_ground_scaling_witness :
    (0 : ℝ) ≤ 1
    ∧ groundVec ⟨0, 0, 0, 1⟩ (3 / 5) (4 / 5) ≠ 0
    ∧ Vec3.vlen (thumbDelta ⟨0, 0, 0, 1⟩ (3 / 5) (4 / 5) 1)
        = MOVE_SPEED * 1 * max |(3 / 5 : ℝ)| |(4 / 5 : ℝ)|
    ∧ (0 : ℝ) < 1 / 2
    ∧ thumbDelta ⟨0, 0, 0, 1⟩ (1 / 2 * (3 / 5)) (1 / 2 * (4 / 5)) 1
        = (1 / 2 : ℝ) • thumbDelta ⟨0, 0, 0, 1⟩ (3 / 5) (4 / 5) 1 := by
  have hg : groundVec ⟨0, 0, 0, 1⟩ (3 / 5) (4 / 5) ≠ 0 := by
    intro hc
    have hx := congrArg Vec3.x hc
    simp only [groundVec, Vec3.applyQuaternion, Vec3.zero_def] at hx
    norm_num at hx
  exact ⟨by norm_num, hg,
    thumbstick_deadzone_ground_scaling.2.2.1 ⟨0, 0, 0, 1⟩ (3 / 5) (4 / 5) 1
      (by norm_num) hg,
    by norm_num,
    thumbstick_deadzone_ground_scaling.2.2.2.2 ⟨0, 0, 0, 1⟩ (3 / 5) (4 / 5) 1
      (1 / 2) (by norm_num)⟩

/-- Counterexample for claim C3 as stated: with a pure-pitch head
orientation (`pitchQuat`, yaw 0) and thumbstick input `(3/5, -3/5)`, the
frame displacement is not parallel to the yaw-only rotation of the input
(their ground cross product is nonzero), so it is not the claimed
yaw-only displacement: the head's pitch bends the movement direction. -/
theorem thumbstick_yaw_only_cex :
    crossY (thumbDelta pitchQuat (3 / 5) (-(3 / 5)) 1)
        (applyAxisAngleY 0 ⟨3 / 5, 0, -(3 / 5)⟩) ≠ 0
    ∧ thumbDelta pitchQuat (3 / 5) (-(3 / 5)) 1
        ≠ (MOVE_SPEED * 1 * max |(3 / 5 : ℝ)| |(-(3 / 5) : ℝ)|) •
            Vec3.normalize (applyAxisAngleY 0 ⟨3 / 5, 0, -(3 / 5)⟩) := by
  have hrot : applyAxisAngleY 0 (⟨3 / 5, 0, -(3 / 5)⟩ : Vec3)
      = (⟨3 / 5, 0, -(3 / 5)⟩ : Vec3) := applyAxisAngleY_zero _
  have hg : groundVec pitchQuat (3 / 5) (-(3 / 5))
      = (⟨3 / 5, 0, -(21 / 125)⟩ : Vec3) := by
    simp only [groundVec, Vec3.applyQuaternion, pitchQuat, Vec3.mk.injEq]
    norm_num
  have hgne : groundVec pitchQuat (3 / 5) (-(3 / 5)) ≠ 0 := by
    rw [hg]
    intro hc
    have hx := congrArg Vec3.x hc
    rw [Vec3.zero_def] at hx
    norm_num at hx
  have hL : 0 < Vec3.vlen (groundVec pitchQuat (3 / 5) (-(3 / 5))) :=
    vlen_pos_of_ne_zero hgne
  have hmax : max |(3 / 5 : ℝ)| |(-(3 / 5) : ℝ)| = 3 / 5 := by
    rw [abs_of_nonneg (by norm_num : (0:ℝ) ≤ 3 / 5), abs_neg,
      abs_of_nonneg (by norm_num : (0:ℝ) ≤ 3 / 5), max_self]
  have hcross : crossY (thumbDelta pitchQuat (3 / 5) (-(3 / 5)) 1)
      (applyAxisAngleY 0 ⟨3 / 5, 0, -(3 / 5)⟩)
      = (MOVE_SPEED * 1 * (3 / 5)) *
        ((1 / Vec3.vlen (groundVec pitchQuat (3 / 5) (-(3 / 5)))) * (-(162 / 625))) := by
    rw [hrot]
    unfold thumbDelta Vec3.normalize
    rw [crossY_smul_left, crossY_smul_left, hmax, hg]
    simp only [crossY]
    norm_num
  have hne : crossY (thumbDelta pitchQuat (3 / 5) (-(3 / 5)) 1)
      (applyAxisAngleY 0 ⟨3 / 5, 0, -(3 / 5)⟩) ≠ 0 := by
    rw [hcross]
    apply mul_ne_zero
    · norm_num [MOVE_SPEED]
    · apply mul_ne_zero
      · exact one_div_ne_zero (ne_of_gt hL)
      · norm_num
  refine ⟨hne, ?_⟩
  intro heq
  apply hne
  rw [heq, hrot, crossY_smul_left]
  unfold Vec3.normalize
  rw [crossY_smul_left, crossY_self]
  ring

/-- Claim C2 (amended): while a VR session is presenting, desktop input
is suppressed as long as the pointer-lock flag is down: from any unlocked
state, any sequence of presenting-time clicks, mouse moves, key
transitions, lock releases and stick-quiet frames leaves position, yaw,
pitch and the capture request unchanged (and the pointer stays unlocked).
The clause the code does not honour — and the counterexample exercises —
is mouse-look, which is gated only on the pointer-lock flag, not on the
session. -/
theorem vr_suppresses_desktop_while_unlocked :
    ∀ (evs : List Ev) (s : WarRoomState),
      s.isPointerLocked = false →
      (∀ e ∈ evs, VrDesktopQuiet e) →
      (evs.foldl step s).pos = s.pos
      ∧ (evs.foldl step s).yaw = s.yaw
      ∧ (evs.foldl step s).pitch = s.pitch
      ∧ (evs.foldl step s).lockRequested = s.lockRequested
      ∧ (evs.foldl step s).isPointerLocked = false := by
  intro evs
  induction evs with
  | nil =>
    intro s hl _
    exact ⟨rfl, rfl, rfl, rfl, hl⟩
  | cons e rest ih =>
    intro s hl hq
    have he := quiet_step e s hl (hq e (List.mem_cons_self e rest))
    have hrest := ih (step s e) he.2.2.2.2
      (fun x hx => hq x (List.mem_cons_of_mem e hx))
    simp only [List.foldl_cons]
    exact ⟨hrest.1.trans he.1, hrest.2.1.trans he.2.1,
      hrest.2.2.1.trans he.2.2.1, hrest.2.2.2.1.trans he.2.2.2.1,
      hrest.2.2.2.2⟩

/-- Witness for claim C2: a concrete presenting-time trace (click, mouse
move, key press, a frame whose only stick readings are inside the
deadzone, key release) applied to the initial state moves nothing. -/
theorem vr_suppresses_desktop_witness :
    initState.isPointerLocked = false
    ∧ (∀ e ∈ ([Ev.click true (fun _ => 0) (fun _ => none) ⟨0, 0, 1, 1⟩ 0 0,
          Ev.mousemove true 5 7 (fun _ => none) ⟨0, 0, 1, 1⟩ 1 2,
          Ev.keydown Key.keyW,
          Ev.frame true (1 / 100) [none, some (1 / 10, 1 / 10)] ⟨0, 0, 0, 1⟩,
          Ev.keyup Key.keyW] : List Ev), VrDesktopQuiet e)
    ∧ (([Ev.click true (fun _ => 0) (fun _ => none) ⟨0, 0, 1, 1⟩ 0 0,
          Ev.mousemove true 5 7 (fun _ => none) ⟨0, 0, 1, 1⟩ 1 2,
          Ev.keydown Key.keyW,
          Ev.frame true (1 / 100) [none, some (1 / 10, 1 / 10)] ⟨0, 0, 0, 1⟩,
          Ev.keyup Key.keyW] : List Ev).foldl step initState).pos = initState.pos := by
  have hq : ∀ e ∈ ([Ev.click true (fun _ => 0) (fun _ => none) ⟨0, 0, 1, 1⟩ 0 0,
      Ev.mousemove true 5 7 (fun _ => none) ⟨0, 0, 1, 1⟩ 1 2,
      Ev.keydown Key.keyW,
      Ev.frame true (1 / 100) [none, some (1 / 10, 1 / 10)] ⟨0, 0, 0, 1⟩,
      Ev.keyup Key.keyW] : List Ev), VrDesktopQuiet e := by
    intro e he
    simp only [List.mem_cons, List.not_mem_nil, or_false] at he
    rcases he with h | h | h | h | h <;> subst h <;>
      first
      | exact thumbFirst_below_deadzone
      | simp [VrDesktopQuiet]
  exact ⟨rfl, hq,
    (vr_suppresses_desktop_while_unlocked _ initState rfl hq).1⟩

/-- Counterexample for claim C2 as stated: the mouse-look branch tests
only the pointer-lock flag (`main.js` mousemove handler), not
`xr.isPresenting`; so once pointer lock was granted on the desktop, a
`mousemove` arriving while a VR session is presenting still changes yaw —
desktop mouse input is not suppressed by the session alone. -/
theorem vr_suppresses_desktop_cex :
    (([Ev.lockChange true,
       Ev.mousemove true 1 0 (fun _ => none) ⟨0, 0, 1, 1⟩ 0 0] : List Ev).foldl
        step initState).yaw ≠ initState.yaw := by
  simp [step, initState, mousemoveHandler, applyMouseLook]
  norm_num

end WarRoom
